import Mathlib

set_option maxRecDepth 16000

/-!
Formal model of the Tamio cash-flow forecasting frontend.

Monetary amounts travel through the API as decimal strings (`types.ts` declares
them as `string`); we embed them as exact rationals (`ℚ`).  The effect of the
frontend's `parseFloat`/IEEE-754 arithmetic is modelled separately by an exact
model of binary64 rounding (`round64` below).  Presentation-only fields (dates,
display names, descriptions) are omitted from the embedded records.
-/

/-! ## Data model (src/tamio-frontend/src/lib/api/types.ts) -/

/-- Embeds the `Direction` union type (`'in' | 'out'`) of `types.ts`. -/
inductive Direction where
  | inflow
  | outflow
deriving DecidableEq, BEq

/-- Embeds `ForecastWeek` of `types.ts` (lines 175-185): the numeric fields,
with the decimal strings read as exact rationals.  The `week_start`/`week_end`
date strings and the contributing `events` list are presentation data not used
by any embedded computation and are omitted. -/
structure ForecastWeek where
  week_number : Nat
  starting_balance : ℚ
  cash_in : ℚ
  cash_out : ℚ
  net_change : ℚ
  ending_balance : ℚ
deriving DecidableEq

/-- Embeds `ForecastSummary` of `types.ts` (lines 187-193).  `runway_weeks` is
embedded as `Option Nat`: the spec stipulates it is null when no week breaches
zero within the horizon (the TypeScript declaration types it `number`). -/
structure ForecastSummary where
  lowest_cash_week : Nat
  lowest_cash_amount : ℚ
  total_cash_in : ℚ
  total_cash_out : ℚ
  runway_weeks : Option Nat
deriving DecidableEq

/-- Embeds `ForecastResponse` of `types.ts` (lines 195-200), without the
`forecast_start_date` presentation string. -/
structure ForecastResponse where
  starting_cash : ℚ
  weeks : List ForecastWeek
  summary : ForecastSummary
deriving DecidableEq

/-- Embeds `RuleEvaluation` of `types.ts` (lines 258-264), without the
`details` display string. -/
structure RuleEvaluation where
  rule_id : String
  rule_name : String
  passed : Bool
  breach_week : Option Nat
deriving DecidableEq

/-- Embeds `ScenarioComparisonResponse` of `types.ts` (lines 249-256): the two
forecasts and the rule evaluations, which are the fields the embedded frontend
computations consume. -/
structure ScenarioComparison where
  base_forecast : ForecastResponse
  scenario_forecast : ForecastResponse
  rule_evaluations : List RuleEvaluation
deriving DecidableEq

/-- Embeds `FinancialRule` of `types.ts` (lines 275-286).  Of the
`threshold_config` JSON object only the `months` field is ever read
(`(threshold_config as { months?: number })?.months`), embedded as
`threshold_months`; display fields are omitted. -/
structure FinancialRule where
  id : String
  rule_type : String
  threshold_months : Option Nat
deriving DecidableEq

/-! ## Forecast engine (spec §4.2)

The engine that fills `ForecastResponse` lives in the backend; the repository
ships only its TypeScript type declarations and callers.  `computeForecast`
below is modelled from the spec. -/

/-- Modelled from the spec: a materialized `CashEvent` as consumed by the
Forecast Engine — a dated, signed cash-flow line.  `dayOffset` is the number of
days between `as_of_date` and the event's date; `amount` is the non-negative
magnitude, with `direction` carrying the sign semantically (spec §4.2). -/
structure CashEventM where
  dayOffset : Nat
  amount : ℚ
  direction : Direction
deriving DecidableEq

/-- The 13-week forecast horizon (spec §2, glossary). -/
def horizonWeeks : Nat := 13

/-- Total inflow magnitude of the events dated in week bucket `w`
(0-based; week `w` covers day offsets `7*w` to `7*w+6`, since week 1 starts on
`as_of_date` and buckets are consecutive 7-day windows). -/
def cashInWeek (events : List CashEventM) (w : Nat) : ℚ :=
  ((events.filter fun e =>
      decide (e.direction = Direction.inflow) && decide (e.dayOffset / 7 = w)).map
    (fun e => e.amount)).sum

/-- Total outflow magnitude of the events dated in week bucket `w`. -/
def cashOutWeek (events : List CashEventM) (w : Nat) : ℚ :=
  ((events.filter fun e =>
      decide (e.direction = Direction.outflow) && decide (e.dayOffset / 7 = w)).map
    (fun e => e.amount)).sum

/-- The 13 per-week `(cash_in, cash_out)` buckets of an event list. -/
def weekBuckets (events : List CashEventM) : List (ℚ × ℚ) :=
  (List.range horizonWeeks).map fun w => (cashInWeek events w, cashOutWeek events w)

/-- Threads the running balance through the week buckets: week `n` starts at
`bal`, ends at `bal + cash_in − cash_out`, and the next week starts at that
ending balance (spec §4.2, §3 `ForecastWeek` invariant). -/
def buildWeeks : Nat → ℚ → List (ℚ × ℚ) → List ForecastWeek
  | _, _, [] => []
  | n, bal, p :: rest =>
    { week_number := n
      starting_balance := bal
      cash_in := p.1
      cash_out := p.2
      net_change := p.1 - p.2
      ending_balance := bal + p.1 - p.2 } :: buildWeeks (n + 1) (bal + p.1 - p.2) rest

/-- Index of the first element satisfying `p`, if any. -/
def firstIdxWhere {α : Type _} (p : α → Bool) : List α → Option Nat
  | [] => none
  | a :: as => if p a then some 0 else (firstIdxWhere p as).map (· + 1)

/-- Modelled from the spec: `compute_forecast(starting_cash, events, as_of_date)`
(spec §4.2) — partitions events into 13 consecutive week buckets, sums signed
amounts by direction within a bucket, threads the running balance sequentially,
and summarizes lowest balance and runway.  Runway is the first week number
whose ending balance is ≤ 0, or `none` if never breached (spec §3
`ForecastResponse`). -/
def computeForecast (startingCash : ℚ) (events : List CashEventM) : ForecastResponse :=
  let weeks := buildWeeks 1 startingCash (weekBuckets events)
  let lowest := (weeks.map fun w => w.ending_balance).foldl min startingCash
  { starting_cash := startingCash
    weeks := weeks
    summary :=
      { lowest_cash_week :=
          ((firstIdxWhere (fun w => decide (w.ending_balance ≤ lowest)) weeks).map (· + 1)).getD 0
        lowest_cash_amount := lowest
        total_cash_in := (weeks.map fun w => w.cash_in).sum
        total_cash_out := (weeks.map fun w => w.cash_out).sum
        runway_weeks :=
          (firstIdxWhere (fun w => decide (w.ending_balance ≤ 0)) weeks).map (· + 1) } }

/-! ### Structural lemmas about `buildWeeks` and `firstIdxWhere` -/

theorem buildWeeks_length (bs : List (ℚ × ℚ)) :
    ∀ n bal, (buildWeeks n bal bs).length = bs.length := by
  induction bs with
  | nil => intro n bal; rfl
  | cons p rest ih => intro n bal; simp [buildWeeks, ih]

theorem buildWeeks_get_balance_eq (bs : List (ℚ × ℚ)) :
    ∀ n bal i (h : i < (buildWeeks n bal bs).length),
      ((buildWeeks n bal bs).get ⟨i, h⟩).ending_balance
        = ((buildWeeks n bal bs).get ⟨i, h⟩).starting_balance
          + ((buildWeeks n bal bs).get ⟨i, h⟩).cash_in
          - ((buildWeeks n bal bs).get ⟨i, h⟩).cash_out := by
  induction bs with
  | nil => intro n bal i h; simp [buildWeeks] at h
  | cons p rest ih =>
    intro n bal i h
    cases i with
    | zero => simp [buildWeeks]
    | succ j =>
      have hj : j < (buildWeeks (n + 1) (bal + p.1 - p.2) rest).length := by
        simpa [buildWeeks] using h
      simpa [buildWeeks] using ih (n + 1) (bal + p.1 - p.2) j hj

theorem buildWeeks_chain (bs : List (ℚ × ℚ)) :
    ∀ n bal i (h : i + 1 < (buildWeeks n bal bs).length),
      ((buildWeeks n bal bs).get ⟨i + 1, h⟩).starting_balance
        = ((buildWeeks n bal bs).get ⟨i, Nat.lt_of_succ_lt h⟩).ending_balance := by
  induction bs with
  | nil => intro n bal i h; simp [buildWeeks] at h
  | cons p rest ih =>
    intro n bal i h
    cases i with
    | zero =>
      cases rest with
      | nil => simp [buildWeeks] at h
      | cons q rest2 => simp [buildWeeks]
    | succ j =>
      have hj : j + 1 < (buildWeeks (n + 1) (bal + p.1 - p.2) rest).length := by
        simpa [buildWeeks] using h
      simpa [buildWeeks] using ih (n + 1) (bal + p.1 - p.2) j hj

theorem firstIdxWhere_eq_none {α : Type _} (p : α → Bool) (l : List α) :
    firstIdxWhere p l = none ↔ ∀ x ∈ l, p x = false := by
  induction l with
  | nil => simp [firstIdxWhere]
  | cons a as ih =>
    by_cases h : p a = true
    · simp [firstIdxWhere, h]
    · have h' : p a = false := by simpa using h
      simp [firstIdxWhere, h', ih]

theorem firstIdxWhere_eq_some {α : Type _} (p : α → Bool) :
    ∀ (l : List α) (i : Nat),
      firstIdxWhere p l = some i ↔
        ∃ h : i < l.length, p (l.get ⟨i, h⟩) = true
          ∧ ∀ j (hj : j < i), p (l.get ⟨j, Nat.lt_trans hj h⟩) = false := by
  intro l
  induction l with
  | nil => intro i; simp [firstIdxWhere]
  | cons a as ih =>
    intro i
    by_cases h : p a = true
    · cases i with
      | zero => simp [firstIdxWhere, h]
      | succ k =>
        simp only [firstIdxWhere, h, if_true]
        constructor
        · intro hk; exact absurd hk (by simp)
        · rintro ⟨hlt, -, hall⟩
          have := hall 0 (Nat.succ_pos k)
          simp [h] at this
    · have h' : p a = false := by simpa using h
      cases i with
      | zero =>
        simp only [firstIdxWhere, h', if_false, Bool.false_eq_true]
        constructor
        · intro hk
          rcases Option.map_eq_some'.mp hk with ⟨j, -, hj⟩
          exact absurd hj (by simp)
        · rintro ⟨hlt, hget, -⟩
          simp [List.get] at hget
          simp [h'] at hget
      | succ k =>
        simp only [firstIdxWhere, h', if_false, Bool.false_eq_true]
        constructor
        · intro hk
          rcases Option.map_eq_some'.mp hk with ⟨j, hj, hjk⟩
          have hjk' : j = k := by omega
          rw [hjk'] at hj
          rcases (ih k).mp hj with ⟨hlt, hget, hall⟩
          refine ⟨by simpa using Nat.succ_lt_succ hlt, by simpa using hget, ?_⟩
          intro m hm
          cases m with
          | zero => simpa using h'
          | succ m' => simpa using hall m' (by omega)
        · rintro ⟨hlt, hget, hall⟩
          have hlt' : k < as.length := by simpa using Nat.lt_of_succ_lt_succ hlt
          have : firstIdxWhere p as = some k := by
            refine (ih k).mpr ⟨hlt', by simpa using hget, ?_⟩
            intro m hm
            simpa using hall (m + 1) (by omega)
          simp [this]

/-- C1: for every forecast produced by the engine, each of the 13 weeks
satisfies `ending_balance = starting_balance + cash_in − cash_out`, and each
week's starting balance is the previous week's ending balance: the running
balance threads sequentially across all 13 weeks. -/
theorem forecast_week_invariants (startingCash : ℚ) (events : List CashEventM) :
    (computeForecast startingCash events).weeks.length = 13
    ∧ (∀ i (h : i < (computeForecast startingCash events).weeks.length),
        ((computeForecast startingCash events).weeks.get ⟨i, h⟩).ending_balance
          = ((computeForecast startingCash events).weeks.get ⟨i, h⟩).starting_balance
            + ((computeForecast startingCash events).weeks.get ⟨i, h⟩).cash_in
            - ((computeForecast startingCash events).weeks.get ⟨i, h⟩).cash_out)
    ∧ (∀ i (h : i + 1 < (computeForecast startingCash events).weeks.length),
        ((computeForecast startingCash events).weeks.get ⟨i + 1, h⟩).starting_balance
          = ((computeForecast startingCash events).weeks.get
              ⟨i, Nat.lt_of_succ_lt h⟩).ending_balance) := by
  refine ⟨?_, ?_, ?_⟩
  · show (buildWeeks 1 startingCash (weekBuckets events)).length = 13
    rw [buildWeeks_length]
    simp [weekBuckets, horizonWeeks]
  · intro i h
    exact buildWeeks_get_balance_eq (weekBuckets events) 1 startingCash i h
  · intro i h
    exact buildWeeks_chain (weekBuckets events) 1 startingCash i h

/-- Closed instance of `forecast_week_invariants`: on a concrete forecast,
week 2's starting balance equals week 1's ending balance. -/
theorem forecast_week_invariants_witness :
    ((computeForecast 1000 [⟨0, 500, Direction.inflow⟩, ⟨3, 200, Direction.outflow⟩]).weeks.get
        ⟨1, by with_unfolding_all decide⟩).starting_balance
      = ((computeForecast 1000 [⟨0, 500, Direction.inflow⟩, ⟨3, 200, Direction.outflow⟩]).weeks.get
        ⟨0, by with_unfolding_all decide⟩).ending_balance :=
  (forecast_week_invariants 1000 [⟨0, 500, Direction.inflow⟩, ⟨3, 200, Direction.outflow⟩]).2.2
    0 (by with_unfolding_all decide)

/-- C5: the summary's runway is the week number of the first week whose ending
balance is ≤ 0 (every earlier week staying strictly positive), and it is `none`
exactly when no week within the 13-week horizon breaches 0. -/
theorem runway_weeks_spec (startingCash : ℚ) (events : List CashEventM) :
    ((computeForecast startingCash events).summary.runway_weeks = none
       ↔ ∀ wk ∈ (computeForecast startingCash events).weeks, 0 < wk.ending_balance)
    ∧ (∀ n, (computeForecast startingCash events).summary.runway_weeks = some n
       ↔ ∃ h : n - 1 < (computeForecast startingCash events).weeks.length,
           1 ≤ n
           ∧ ((computeForecast startingCash events).weeks.get ⟨n - 1, h⟩).ending_balance ≤ 0
           ∧ ∀ j (hj : j < n - 1),
               0 < ((computeForecast startingCash events).weeks.get
                     ⟨j, Nat.lt_trans hj h⟩).ending_balance) := by
  have hweeks : (computeForecast startingCash events).summary.runway_weeks
      = (firstIdxWhere (fun w => decide (w.ending_balance ≤ 0))
          (computeForecast startingCash events).weeks).map (· + 1) := rfl
  constructor
  · rw [hweeks]
    simp only [Option.map_eq_none']
    rw [firstIdxWhere_eq_none]
    constructor
    · intro hall wk hwk
      have := hall wk hwk
      simpa [not_le] using this
    · intro hall wk hwk
      simpa [not_le] using hall wk hwk
  · intro n
    rw [hweeks]
    constructor
    · intro hn
      rcases Option.map_eq_some'.mp hn with ⟨i, hi, hin⟩
      rcases (firstIdxWhere_eq_some _ _ i).mp hi with ⟨hlt, hget, hall⟩
      have hn1 : n - 1 = i := by omega
      refine ⟨by omega, by omega, ?_, ?_⟩
      · have : ((computeForecast startingCash events).weeks.get ⟨n - 1, by omega⟩)
            = ((computeForecast startingCash events).weeks.get ⟨i, hlt⟩) := by
          congr 1
          exact Fin.ext hn1
        rw [this]
        simpa using hget
      · intro j hj
        have := hall j (by omega)
        simpa [not_le] using this
    · rintro ⟨hlt, hn1, hbreach, hall⟩
      have hidx : firstIdxWhere (fun w => decide (w.ending_balance ≤ 0))
          (computeForecast startingCash events).weeks = some (n - 1) := by
        refine (firstIdxWhere_eq_some _ _ (n - 1)).mpr ⟨hlt, by simpa using hbreach, ?_⟩
        intro j hj
        simpa [not_le] using hall j hj
      rw [hidx]
      simp only [Option.map_some']
      congr 1
      omega

/-- Closed instance of `runway_weeks_spec`: with no events and positive
starting cash no week breaches zero, so the runway is `none`. -/
theorem runway_weeks_spec_witness :
    (computeForecast 100 ([] : List CashEventM)).summary.runway_weeks = none :=
  (runway_weeks_spec 100 []).1.mpr (by with_unfolding_all decide)

/-! ## Week-13 scenario impact (src/tamio-frontend/src/pages/Scenarios.tsx
lines 377-380, src/tamio-frontend/src/pages/Onboarding.tsx lines 1230-1233) -/

/-- Embeds the displayed week-13 impact:
`parseFloat(comparison.scenario_forecast.weeks[12]?.ending_balance || '0') -
 parseFloat(comparison.base_forecast.weeks[12]?.ending_balance || '0')`. -/
def weekThirteenImpact (c : ScenarioComparison) : ℚ :=
  (match c.scenario_forecast.weeks[12]? with
    | some w => w.ending_balance
    | none => 0)
  - (match c.base_forecast.weeks[12]? with
    | some w => w.ending_balance
    | none => 0)

/-- C2: when both forecasts of a comparison have 13 weeks, the reported week-13
impact is `scenario.weeks[12].ending_balance − base.weeks[12].ending_balance`,
and it is 0 whenever the two forecasts are identical. -/
theorem weekThirteenImpact_spec (c : ScenarioComparison)
    (hb : c.base_forecast.weeks.length = 13)
    (hs : c.scenario_forecast.weeks.length = 13) :
    weekThirteenImpact c
      = (c.scenario_forecast.weeks.get ⟨12, by omega⟩).ending_balance
        - (c.base_forecast.weeks.get ⟨12, by omega⟩).ending_balance
    ∧ (c.scenario_forecast = c.base_forecast → weekThirteenImpact c = 0) := by
  constructor
  · have h1 : c.scenario_forecast.weeks[12]?
        = some (c.scenario_forecast.weeks.get ⟨12, by omega⟩) :=
      by rw [List.getElem?_eq_getElem (by omega)]; simp [List.get_eq_getElem]
    have h2 : c.base_forecast.weeks[12]?
        = some (c.base_forecast.weeks.get ⟨12, by omega⟩) :=
      by rw [List.getElem?_eq_getElem (by omega)]; simp [List.get_eq_getElem]
    simp [weekThirteenImpact, h1, h2]
  · intro he
    simp [weekThirteenImpact, he]

/-- Closed instance of `weekThirteenImpact_spec`: the impact of a no-op
comparison (identical 13-week base and scenario forecasts) is 0. -/
theorem weekThirteenImpact_spec_witness :
    weekThirteenImpact
      { base_forecast := computeForecast 1000 [⟨0, 500, Direction.inflow⟩]
        scenario_forecast := computeForecast 1000 [⟨0, 500, Direction.inflow⟩]
        rule_evaluations := [] } = 0 :=
  (weekThirteenImpact_spec
      { base_forecast := computeForecast 1000 [⟨0, 500, Direction.inflow⟩]
        scenario_forecast := computeForecast 1000 [⟨0, 500, Direction.inflow⟩]
        rule_evaluations := [] }
      (by with_unfolding_all decide) (by with_unfolding_all decide)).2 rfl

/-! ## Cash-buffer target and status (src/tamio-frontend/src/pages/Onboarding.tsx
lines 692-722) -/

/-- Embeds `rules.find((r) => r.rule_type === 'minimum_cash_buffer')`. -/
def bufferRule (rules : List FinancialRule) : Option FinancialRule :=
  rules.find? fun r => decide (r.rule_type = "minimum_cash_buffer")

/-- Embeds `(bufferRule?.threshold_config as { months?: number })?.months || 3`.
JavaScript `||` replaces every falsy value — including a configured `0` — by
the default `3`. -/
def bufferMonths (rules : List FinancialRule) : Nat :=
  match (bufferRule rules).bind (fun r => r.threshold_months) with
  | some m => if m = 0 then 3 else m
  | none => 3

/-- Embeds `monthlyExpenses`: with a loaded forecast,
`baseForecast.weeks.slice(0, 4).reduce((sum, week) => sum + parseFloat(week.cash_out || '0'), 0)`,
and the literal `30000` fallback otherwise. -/
def monthlyExpenses (baseForecast : Option ForecastResponse) : ℚ :=
  match baseForecast with
  | some f => (f.weeks.take 4).foldl (fun sum w => sum + w.cash_out) 0
  | none => 30000

/-- Embeds `bufferAmount = monthlyExpenses * bufferMonths`. -/
def bufferAmount (rules : List FinancialRule) (baseForecast : Option ForecastResponse) : ℚ :=
  monthlyExpenses baseForecast * (bufferMonths rules : ℚ)

/-- C3 (amended: nonzero month count): for a loaded forecast and a
`minimum_cash_buffer` rule whose configured month count `m` is nonzero, the
buffer target is the cash-out total of the first four forecast weeks times `m`. -/
theorem bufferAmount_formula (rules : List FinancialRule) (f : ForecastResponse)
    (r : FinancialRule) (m : Nat) (hr : bufferRule rules = some r)
    (hm : r.threshold_months = some m) (hm0 : m ≠ 0) :
    bufferAmount rules (some f)
      = ((f.weeks.take 4).foldl (fun sum w => sum + w.cash_out) 0) * (m : ℚ) := by
  have hmonths : bufferMonths rules = m := by
    simp [bufferMonths, hr, hm, hm0]
  simp [bufferAmount, monthlyExpenses, hmonths]

/-- Closed instance of `bufferAmount_formula` at a two-month rule and a
concrete forecast. -/
theorem bufferAmount_formula_witness :
    bufferAmount [⟨"r1", "minimum_cash_buffer", some 2⟩]
        (some (computeForecast 1000 [⟨0, 250, Direction.outflow⟩]))
      = (((computeForecast 1000 [⟨0, 250, Direction.outflow⟩]).weeks.take 4).foldl
          (fun sum w => sum + w.cash_out) 0) * ((2 : Nat) : ℚ) :=
  bufferAmount_formula [⟨"r1", "minimum_cash_buffer", some 2⟩]
    (computeForecast 1000 [⟨0, 250, Direction.outflow⟩])
    ⟨"r1", "minimum_cash_buffer", some 2⟩ 2 (by with_unfolding_all decide) rfl
    (by decide)

/-- Counterexample to C3 as stated: a `minimum_cash_buffer` rule configured
with `months = 0` is a rule "with a configured month count", yet JavaScript
`|| 3` silently replaces the 0, so the buffer target is the 4-week cash-out
total times 3, not times 0. -/
theorem bufferAmount_zero_months_cex :
    bufferRule [⟨"r0", "minimum_cash_buffer", some 0⟩]
        = some ⟨"r0", "minimum_cash_buffer", some 0⟩
    ∧ bufferAmount [⟨"r0", "minimum_cash_buffer", some 0⟩]
          (some (computeForecast 10 [⟨0, 1, Direction.outflow⟩]))
        ≠ ((((computeForecast 10 [⟨0, 1, Direction.outflow⟩]).weeks.take 4).foldl
            (fun sum w => sum + w.cash_out) 0) * ((0 : Nat) : ℚ)) := by
  constructor
  · with_unfolding_all decide
  · with_unfolding_all decide

/-- Embeds `isBufferSafe` (Onboarding.tsx lines 718-722): with a comparison,
safe iff no rule evaluation failed; otherwise, with a base forecast, safe iff
`parseFloat(baseForecast.summary.lowest_cash_amount) > bufferAmount`
(strictly); `true` when nothing is loaded. -/
def isBufferSafe (comparison : Option ScenarioComparison)
    (baseForecast : Option ForecastResponse) (bufferAmt : ℚ) : Bool :=
  match comparison with
  | some c => ! c.rule_evaluations.any fun r => ! r.passed
  | none =>
    match baseForecast with
    | some f => decide (bufferAmt < f.summary.lowest_cash_amount)
    | none => true

/-- C4 (amended: strict comparison): with a base forecast and no comparison,
the buffer status is safe exactly when the lowest projected cash amount is
strictly greater than the target; the boundary case where the lowest balance
equals the target is reported as at-risk, not safe. -/
theorem isBufferSafe_strict (f : ForecastResponse) (bufferAmt : ℚ) :
    (isBufferSafe none (some f) bufferAmt = true
      ↔ bufferAmt < f.summary.lowest_cash_amount)
    ∧ isBufferSafe none (some f) f.summary.lowest_cash_amount = false := by
  constructor
  · simp [isBufferSafe]
  · simp [isBufferSafe]

/-- Counterexample to C4 as stated: a concrete base forecast whose lowest
projected balance exactly equals the buffer target (lowest = target = 120) is
reported as not safe, although `lowest ≥ target` holds. -/
theorem isBufferSafe_boundary_cex :
    (computeForecast 130 [⟨0, 10, Direction.outflow⟩]).summary.lowest_cash_amount
        = bufferAmount [⟨"r1", "minimum_cash_buffer", some 12⟩]
            (some (computeForecast 130 [⟨0, 10, Direction.outflow⟩]))
    ∧ isBufferSafe none (some (computeForecast 130 [⟨0, 10, Direction.outflow⟩]))
          (bufferAmount [⟨"r1", "minimum_cash_buffer", some 12⟩]
            (some (computeForecast 130 [⟨0, 10, Direction.outflow⟩])))
        = false := by
  constructor
  · with_unfolding_all decide
  · with_unfolding_all decide

/-! ## Locally generated scenario suggestions — concentration pass
(src/tamio-frontend/src/pages/Onboarding.tsx lines 585-624) -/

/-- Embeds `Client` of `types.ts` restricted to the fields the concentration
pass reads: `id` and `billing_config?.amount` (a decimal string, possibly
absent, embedded as `Option ℚ`).  Display fields and the risk/behavior flags
consumed by the later suggestion passes are omitted. -/
structure Client where
  id : String
  billing_amount : Option ℚ
deriving DecidableEq

/-- Embeds `parseFloat(client.billing_config?.amount || '0')`. -/
def clientAmount (c : Client) : ℚ :=
  match c.billing_amount with
  | some a => a
  | none => 0

/-- Embeds `totalClientIncome = clients.reduce((sum, client) => sum + amount, 0)`. -/
def totalClientIncome (clients : List Client) : ℚ :=
  clients.foldl (fun sum c => sum + clientAmount c) 0

/-- Embeds `concentration = totalClientIncome > 0 ? (clientAmount / totalClientIncome) * 100 : 0`. -/
def clientConcentration (clients : List Client) (c : Client) : ℚ :=
  if 0 < totalClientIncome clients then clientAmount c / totalClientIncome clients * 100 else 0

/-- Embeds `ScenarioSuggestion` of `types.ts` (lines 266-272) restricted to
the machine-readable fields: `scenario_type`, `priority`, and the
`prefill_params` entries `client_id` and `delay_days`; the `name` and
`description` display strings are omitted. -/
structure ScenarioSuggestion where
  scenario_type : String
  priority : String
  client_id : Option String
  delay_days : Option Nat
deriving DecidableEq

/-- The suggestions the concentration pass pushes for one client: two
high-priority suggestions (`payment_delay_in` with 30-day delay and
`client_loss`) when its concentration exceeds 40, one medium-priority
`payment_delay_in` with 14-day delay when it exceeds 25 but not 40, and
nothing otherwise. -/
def clientConcSuggestions (clients : List Client) (c : Client) : List ScenarioSuggestion :=
  let conc := clientConcentration clients c
  if 40 < conc then
    [{ scenario_type := "payment_delay_in", priority := "high"
       client_id := some c.id, delay_days := some 30 },
     { scenario_type := "client_loss", priority := "high"
       client_id := some c.id, delay_days := none }]
  else if 25 < conc then
    [{ scenario_type := "payment_delay_in", priority := "medium"
       client_id := some c.id, delay_days := some 14 }]
  else []

/-- Embeds the concentration `forEach` of `generateSuggestedScenarios`
(Onboarding.tsx lines 595-624): each client contributes its concentration
suggestions in list order. -/
def concentrationSuggestions (clients : List Client) : List ScenarioSuggestion :=
  clients.bind (clientConcSuggestions clients)

/-- C6: with a positive total billing amount, the concentration pass flags at
exactly the spec thresholds.  A client whose revenue share exceeds 40% yields
the two high-priority suggestions (`payment_delay_in` and `client_loss`, both
scoped to that client, and both present in the generated list); a share over
25% but at most 40% yields exactly the medium-priority `payment_delay_in`
suggestion; a share at or below 25% yields no concentration suggestion. -/
theorem concentration_thresholds (clients : List Client) (c : Client)
    (hc : c ∈ clients) (hpos : 0 < totalClientIncome clients) :
    ((2 : ℚ)/5 < clientAmount c / totalClientIncome clients →
      clientConcSuggestions clients c
        = [{ scenario_type := "payment_delay_in", priority := "high"
             client_id := some c.id, delay_days := some 30 },
           { scenario_type := "client_loss", priority := "high"
             client_id := some c.id, delay_days := none }]
      ∧ ({ scenario_type := "payment_delay_in", priority := "high"
           client_id := some c.id, delay_days := some 30 } : ScenarioSuggestion)
          ∈ concentrationSuggestions clients
      ∧ ({ scenario_type := "client_loss", priority := "high"
           client_id := some c.id, delay_days := none } : ScenarioSuggestion)
          ∈ concentrationSuggestions clients)
    ∧ ((1 : ℚ)/4 < clientAmount c / totalClientIncome clients →
       clientAmount c / totalClientIncome clients ≤ 2/5 →
      clientConcSuggestions clients c
        = [{ scenario_type := "payment_delay_in", priority := "medium"
             client_id := some c.id, delay_days := some 14 }]
      ∧ ({ scenario_type := "payment_delay_in", priority := "medium"
           client_id := some c.id, delay_days := some 14 } : ScenarioSuggestion)
          ∈ concentrationSuggestions clients)
    ∧ (clientAmount c / totalClientIncome clients ≤ 1/4 →
      clientConcSuggestions clients c = []) := by
  have hconc : clientConcentration clients c
      = clientAmount c / totalClientIncome clients * 100 := by
    simp [clientConcentration, hpos]
  have h40 : (40 : ℚ) < clientConcentration clients c
      ↔ (2 : ℚ)/5 < clientAmount c / totalClientIncome clients := by
    rw [hconc]
    constructor
    · intro h; nlinarith
    · intro h; nlinarith
  have h25 : (25 : ℚ) < clientConcentration clients c
      ↔ (1 : ℚ)/4 < clientAmount c / totalClientIncome clients := by
    rw [hconc]
    constructor
    · intro h; nlinarith
    · intro h; nlinarith
  refine ⟨?_, ?_, ?_⟩
  · intro hshare
    have hgt : (40 : ℚ) < clientConcentration clients c := h40.mpr hshare
    have heq : clientConcSuggestions clients c
        = [{ scenario_type := "payment_delay_in", priority := "high"
             client_id := some c.id, delay_days := some 30 },
           { scenario_type := "client_loss", priority := "high"
             client_id := some c.id, delay_days := none }] := by
      simp [clientConcSuggestions, hgt]
    refine ⟨heq, ?_, ?_⟩
    · exact List.mem_bind.mpr ⟨c, hc, by rw [heq]; simp⟩
    · exact List.mem_bind.mpr ⟨c, hc, by rw [heq]; simp⟩
  · intro hshare hshare'
    have hgt : (25 : ℚ) < clientConcentration clients c := h25.mpr hshare
    have hle : ¬ (40 : ℚ) < clientConcentration clients c := by
      intro h; exact absurd (h40.mp h) (not_lt.mpr hshare')
    have heq : clientConcSuggestions clients c
        = [{ scenario_type := "payment_delay_in", priority := "medium"
             client_id := some c.id, delay_days := some 14 }] := by
      simp [clientConcSuggestions, hle, hgt]
    refine ⟨heq, ?_⟩
    exact List.mem_bind.mpr ⟨c, hc, by rw [heq]; simp⟩
  · intro hshare
    have hle25 : ¬ (25 : ℚ) < clientConcentration clients c := by
      intro h; exact absurd (h25.mp h) (not_lt.mpr hshare)
    have hle40 : ¬ (40 : ℚ) < clientConcentration clients c := by
      intro h
      apply hle25
      linarith
    simp [clientConcSuggestions, hle25, hle40]

/-- Closed instance of `concentration_thresholds`: in a 50/30/20 split, the
50%-share client's `client_loss` suggestion is generated with high priority. -/
theorem concentration_thresholds_witness :
    ({ scenario_type := "client_loss", priority := "high"
       client_id := some "a", delay_days := none } : ScenarioSuggestion)
      ∈ concentrationSuggestions
          [⟨"a", some 50⟩, ⟨"b", some 30⟩, ⟨"c", some 20⟩] :=
  (((concentration_thresholds [⟨"a", some 50⟩, ⟨"b", some 30⟩, ⟨"c", some 20⟩]
      ⟨"a", some 50⟩ (by simp) (by with_unfolding_all decide)).1)
    (by with_unfolding_all decide)).2.2

/-- C7: when the total billing revenue is zero (for instance because every
billing amount is missing or zero), no division is evaluated: every client's
concentration is taken as 0 and the concentration pass produces no suggestion. -/
theorem concentration_zero_total (clients : List Client)
    (h : totalClientIncome clients = 0) :
    (∀ c ∈ clients, clientConcentration clients c = 0)
    ∧ concentrationSuggestions clients = [] := by
  have hconc : ∀ c : Client, clientConcentration clients c = 0 := by
    intro c
    simp [clientConcentration, h]
  constructor
  · intro c _
    exact hconc c
  · have hnil : ∀ c : Client, clientConcSuggestions clients c = [] := by
      intro c
      simp only [clientConcSuggestions, hconc c]
      norm_num
    simp only [concentrationSuggestions]
    induction clients with
    | nil => rfl
    | cons a as ih => simp [List.bind, hnil, ih]

/-- Closed instance of `concentration_zero_total`: two clients, one with a
missing billing amount and one with amount 0, produce no concentration
suggestions. -/
theorem concentration_zero_total_witness :
    concentrationSuggestions [⟨"a", none⟩, ⟨"b", some 0⟩] = [] :=
  (concentration_zero_total [⟨"a", none⟩, ⟨"b", some 0⟩]
    (by with_unfolding_all decide)).2

/-! ## Cash-buffer rule save handler (src/unnamed/part_001 lines 136-159,
the Settings page) -/

/-- Embeds JavaScript `parseInt` restricted to the base-10, unsigned strings
the Settings select supplies: the longest leading digit run, or `none` (NaN)
when the string does not start with a digit. -/
def parseIntJS (s : String) : Option Nat :=
  let ds := s.toList.takeWhile fun ch => ch.isDigit
  if ds.isEmpty then none
  else some (ds.foldl (fun n ch => n * 10 + (ch.toNat - 48)) 0)

/-- The API call `handleUpdateBufferRule` issues: `updateRule(existingRule.id,
{ threshold_config: { months: parseInt(bufferMonths) } })` or `createRule({...,
rule_type: 'minimum_cash_buffer', threshold_config: { months: parseInt(bufferMonths) }, ...})`. -/
inductive BufferRuleAction where
  | updateCall (ruleId : String) (months : Option Nat)
  | createCall (months : Option Nat)
deriving DecidableEq

/-- Embeds `handleUpdateBufferRule` (src/unnamed/part_001 lines 136-159):
update the existing `minimum_cash_buffer` rule if one is found among the
loaded rules, otherwise create a new one. -/
def handleUpdateBufferRule (rules : List FinancialRule) (bufferMonthsStr : String) :
    BufferRuleAction :=
  match rules.find? (fun r => decide (r.rule_type = "minimum_cash_buffer")) with
  | some existingRule => BufferRuleAction.updateCall existingRule.id (parseIntJS bufferMonthsStr)
  | none => BufferRuleAction.createCall (parseIntJS bufferMonthsStr)

/-- Modelled from the spec: the effect of the issued API call on the stored
rule list (`updateRule` rewrites the threshold config of the rule with the
given id; `createRule` appends a new `minimum_cash_buffer` rule).  The backend
store itself is not part of the repository. -/
def applyBufferRuleAction (rules : List FinancialRule) (newId : String) :
    BufferRuleAction → List FinancialRule
  | BufferRuleAction.updateCall rid months =>
      rules.map fun r =>
        if r.id = rid then { r with threshold_months := months } else r
  | BufferRuleAction.createCall months =>
      rules ++ [{ id := newId, rule_type := "minimum_cash_buffer", threshold_months := months }]

/-- Number of `minimum_cash_buffer` rules in a rule list. -/
def countBufferRules (rules : List FinancialRule) : Nat :=
  (rules.filter fun r => decide (r.rule_type = "minimum_cash_buffer")).length

theorem countBufferRules_map_update (rules : List FinancialRule) (rid : String)
    (months : Option Nat) :
    countBufferRules (rules.map fun r =>
        if r.id = rid then { r with threshold_months := months } else r)
      = countBufferRules rules := by
  induction rules with
  | nil => rfl
  | cons a as ih =>
    by_cases ha : a.id = rid
    · by_cases ht : a.rule_type = "minimum_cash_buffer"
      · simp [countBufferRules, List.filter, ha, ht] at ih ⊢
        omega
      · simp [countBufferRules, List.filter, ha, ht] at ih ⊢
        exact ih
    · by_cases ht : a.rule_type = "minimum_cash_buffer"
      · simp [countBufferRules, List.filter, ha, ht] at ih ⊢
        omega
      · simp [countBufferRules, List.filter, ha, ht] at ih ⊢
        exact ih

/-- C9: the save handler keeps at most one `minimum_cash_buffer` rule.  When
such a rule is already loaded it issues an update of that rule's threshold
config with the parsed month count — never a create — leaving the number of
buffer rules unchanged; it issues a create exactly when no such rule exists;
and a store holding at most one buffer rule still holds at most one after the
handler's call is applied. -/
theorem handleUpdateBufferRule_spec (rules : List FinancialRule)
    (s : String) (newId : String) :
    ((∃ r ∈ rules, r.rule_type = "minimum_cash_buffer") →
      ∃ r, rules.find? (fun r => decide (r.rule_type = "minimum_cash_buffer")) = some r
        ∧ handleUpdateBufferRule rules s = BufferRuleAction.updateCall r.id (parseIntJS s)
        ∧ countBufferRules (applyBufferRuleAction rules newId (handleUpdateBufferRule rules s))
            = countBufferRules rules)
    ∧ ((∀ r ∈ rules, r.rule_type ≠ "minimum_cash_buffer") →
      handleUpdateBufferRule rules s = BufferRuleAction.createCall (parseIntJS s))
    ∧ (countBufferRules rules ≤ 1 →
      countBufferRules (applyBufferRuleAction rules newId (handleUpdateBufferRule rules s)) ≤ 1) := by
  refine ⟨?_, ?_, ?_⟩
  · rintro ⟨r0, hr0, hr0t⟩
    have hne : rules.find? (fun r => decide (r.rule_type = "minimum_cash_buffer")) ≠ none := by
      intro hnone
      have := List.find?_eq_none.mp hnone r0 hr0
      simp [hr0t] at this
    rcases Option.ne_none_iff_exists.mp hne with ⟨r, hr⟩
    refine ⟨r, hr.symm, ?_, ?_⟩
    · simp [handleUpdateBufferRule, ← hr]
    · simp only [handleUpdateBufferRule, ← hr]
      exact countBufferRules_map_update rules r.id (parseIntJS s)
  · intro hall
    have hnone : rules.find? (fun r => decide (r.rule_type = "minimum_cash_buffer")) = none := by
      apply List.find?_eq_none.mpr
      intro r hr
      simp [hall r hr]
    simp [handleUpdateBufferRule, hnone]
  · intro hle
    cases hfind : rules.find? (fun r => decide (r.rule_type = "minimum_cash_buffer")) with
    | some r =>
      simp only [handleUpdateBufferRule, hfind, applyBufferRuleAction]
      rw [countBufferRules_map_update]
      exact hle
    | none =>
      have hcount : countBufferRules rules = 0 := by
        simp only [countBufferRules, List.length_eq_zero, List.filter_eq_nil]
        intro r hr
        have := List.find?_eq_none.mp hfind r hr
        simpa using this
      simp only [handleUpdateBufferRule, hfind, applyBufferRuleAction, countBufferRules,
        List.filter_append]
      simp only [countBufferRules] at hcount
      simp [List.filter, hcount]

/-- Closed instance of `handleUpdateBufferRule_spec`: applying the handler's
call to a store holding one buffer rule leaves at most one buffer rule. -/
theorem handleUpdateBufferRule_spec_witness :
    countBufferRules
      (applyBufferRuleAction [⟨"r1", "minimum_cash_buffer", some 2⟩] "fresh"
        (handleUpdateBufferRule [⟨"r1", "minimum_cash_buffer", some 2⟩] "3")) ≤ 1 :=
  (handleUpdateBufferRule_spec [⟨"r1", "minimum_cash_buffer", some 2⟩] "3" "fresh").2.2
    (by with_unfolding_all decide)

/-! ## Binary64 model of the frontend's monetary arithmetic

The frontend converts the API's decimal strings with `parseFloat` and adds the
results as JavaScript numbers, i.e. IEEE-754 binary64 values.  `round64` below
is an exact model (over `ℚ`) of rounding a real value to the nearest binary64
value: scale into the 53-bit significand range and round the significand to the
nearest integer.  Ties round upward here rather than to even, and no
overflow/subnormal range handling is included — none of the values considered
in this development hits a tie, an overflow, or a subnormal. -/

/-- Fuel-driven base-2 logarithm: `log2fuel fuel n` is `⌊log₂ n⌋` for `n ≥ 1`
whenever `fuel ≥ log₂ n`. -/
def log2fuel : Nat → Nat → Nat
  | 0, _ => 0
  | fuel + 1, n => if 2 ≤ n then log2fuel fuel (n / 2) + 1 else 0

/-- Position of the leading bit of `n` (that is, `⌊log₂ n⌋` for `n ≥ 1`). -/
def nbits (n : Nat) : Nat := log2fuel n n

/-- The power `2 ^ e` in `ℚ`, for an integer exponent. -/
def pow2q : ℤ → ℚ
  | Int.ofNat n => ((2 ^ n : Nat) : ℚ)
  | Int.negSucc n => 1 / ((2 ^ (n + 1) : Nat) : ℚ)

/-- Floor of a rational, computed on the numerator and denominator. -/
def qfloor (q : ℚ) : ℤ := Int.fdiv q.num q.den

/-- Round to the nearest integer (ties upward). -/
def roundNearest (q : ℚ) : ℤ := qfloor (q + 1/2)

/-- For `a > 0`, the exponent `⌊log₂ a⌋`, via the bit lengths of numerator and
denominator. -/
def qlog2 (a : ℚ) : ℤ :=
  let e0 : ℤ := (nbits a.num.natAbs : ℤ) - (nbits a.den : ℤ)
  if pow2q e0 ≤ a then e0 else e0 - 1

/-- Rounds a rational to the nearest IEEE-754 binary64 value (as an exact
rational): the significand `|q| / 2 ^ (e − 52)` is rounded to the nearest
integer, where `e = ⌊log₂ |q|⌋`. -/
def round64 (q : ℚ) : ℚ :=
  if q = 0 then 0
  else
    let a := if q < 0 then -q else q
    let e := qlog2 a
    let m := a * pow2q ((52 : ℤ) - e)
    let r : ℤ := roundNearest m
    (if q < 0 then (-1 : ℚ) else 1) * (r : ℚ) * pow2q (e - (52 : ℤ))

/-- Embeds the four-week expense total as the frontend actually computes it:
`parseFloat` of each `cash_out` string followed by JavaScript `+`, each step
rounding to binary64. -/
def monthlyExpensesFP (f : ForecastResponse) : ℚ :=
  (f.weeks.take 4).foldl (fun sum w => round64 (sum + round64 w.cash_out)) 0

theorem log2fuel_le (fuel : Nat) :
    ∀ n k : Nat, n < 2 ^ (k + 1) → log2fuel fuel n ≤ k := by
  induction fuel with
  | zero => intro n k _; exact Nat.zero_le k
  | succ f ih =>
    intro n k h
    simp only [log2fuel]
    by_cases h2 : 2 ≤ n
    · rw [if_pos h2]
      have hk : 1 ≤ k := by
        by_contra hk0
        push_neg at hk0
        have : k = 0 := by omega
        subst this
        simp at h
        omega
      have hdiv : n / 2 < 2 ^ k := by
        have hmul : n < 2 ^ k * 2 := by
          have : 2 ^ (k + 1) = 2 ^ k * 2 := pow_succ 2 k
          omega
        exact Nat.div_lt_of_lt_mul (by omega)
      have hk1 : 2 ^ ((k - 1) + 1) = 2 ^ k := by
        congr 1
        omega
      have := ih (n / 2) (k - 1) (by omega)
      omega
    · rw [if_neg h2]; exact Nat.zero_le k

theorem nbits_le (n : Nat) (h : n < 2 ^ 53) : nbits n ≤ 52 :=
  log2fuel_le n n 52 h

theorem qlog2_natCast_le (n : Nat) (h : n ≤ 2 ^ 52) : qlog2 ((n : ℕ) : ℚ) ≤ 52 := by
  have hb : nbits n ≤ 52 := nbits_le n (by omega)
  have h1 : nbits 1 = 0 := rfl
  simp only [qlog2, Rat.num_natCast, Rat.den_natCast, Int.natAbs_ofNat, h1]
  split
  · omega
  · omega

theorem qfloor_eq_floor (q : ℚ) : qfloor q = ⌊q⌋ := by
  rw [Rat.floor_def, qfloor]
  exact Int.fdiv_eq_ediv _ (Int.ofNat_nonneg _)

theorem roundNearest_eq_round (q : ℚ) : roundNearest q = round q := by
  rw [roundNearest, qfloor_eq_floor, round_eq]

theorem pow2q_toCancel (j : Nat) : ((2 ^ j : Nat) : ℚ) * pow2q (-(j : ℤ)) = 1 := by
  cases j with
  | zero => norm_num [pow2q]
  | succ i =>
    have hneg : -(((i + 1 : Nat)) : ℤ) = Int.negSucc i := by
      rw [Int.negSucc_eq]
      push_cast
      ring
    rw [hneg]
    have hval : pow2q (Int.negSucc i) = 1 / ((2 ^ (i + 1) : Nat) : ℚ) := rfl
    rw [hval, mul_one_div]
    apply div_self
    exact ne_of_gt (by positivity)

theorem round64_core_natCast (n : Nat) (h2 : n ≤ 2 ^ 52) :
    ((roundNearest (((n : ℕ) : ℚ) * pow2q ((52 : ℤ) - qlog2 ((n : ℕ) : ℚ)))) : ℚ)
        * pow2q (qlog2 ((n : ℕ) : ℚ) - (52 : ℤ))
      = ((n : ℕ) : ℚ) := by
  have he52 : qlog2 ((n : ℕ) : ℚ) ≤ 52 := qlog2_natCast_le n h2
  set e := qlog2 ((n : ℕ) : ℚ) with he
  set j : ℕ := ((52 : ℤ) - e).toNat with hj
  have hj1 : (52 : ℤ) - e = (j : ℤ) := (Int.toNat_of_nonneg (by omega)).symm
  have hj2 : e - (52 : ℤ) = -(j : ℤ) := by omega
  have hpow : pow2q ((52 : ℤ) - e) = ((2 ^ j : Nat) : ℚ) := by
    rw [hj1]
    rfl
  have hm : ((n : ℕ) : ℚ) * pow2q ((52 : ℤ) - e) = (((n * 2 ^ j : Nat)) : ℚ) := by
    rw [hpow]
    push_cast
    ring
  rw [hm, hj2]
  have hr : roundNearest (((n * 2 ^ j : Nat)) : ℚ) = ((n * 2 ^ j : Nat) : ℤ) := by
    rw [roundNearest_eq_round]
    exact round_natCast _
  rw [hr]
  have hcancel := pow2q_toCancel j
  push_cast at hcancel ⊢
  calc (n : ℚ) * 2 ^ j * pow2q (-(j : ℤ))
      = (n : ℚ) * ((2 : ℚ) ^ j * pow2q (-(j : ℤ))) := by ring
    _ = (n : ℚ) := by rw [hcancel]; ring

theorem round64_intCast (k : ℤ) (h : k.natAbs ≤ 2 ^ 52) :
    round64 ((k : ℤ) : ℚ) = ((k : ℤ) : ℚ) := by
  rcases lt_trichotomy k 0 with hk | hk | hk
  · have hne : ((k : ℤ) : ℚ) ≠ 0 := Int.cast_ne_zero.mpr (by omega)
    have hlt : ((k : ℤ) : ℚ) < 0 := by exact_mod_cast hk
    have habs : ((k.natAbs : ℕ) : ℤ) = -k := by omega
    have ha : ((k.natAbs : ℕ) : ℚ) = -((k : ℤ) : ℚ) := by
      rw [Int.cast_natAbs, abs_of_neg hk]
      push_cast
      ring
    simp only [round64, if_neg hne, if_pos hlt]
    rw [← ha, mul_assoc, round64_core_natCast k.natAbs h, ha]
    ring
  · subst hk
    simp [round64]
  · have hne : ((k : ℤ) : ℚ) ≠ 0 := Int.cast_ne_zero.mpr (by omega)
    have hnlt : ¬ ((k : ℤ) : ℚ) < 0 := by
      rw [not_lt]
      exact_mod_cast le_of_lt hk
    have hkn : ((k : ℤ) : ℚ) = ((k.toNat : ℕ) : ℚ) := by
      have : ((k.toNat : ℕ) : ℤ) = k := Int.toNat_of_nonneg (le_of_lt hk)
      exact_mod_cast this.symm
    simp only [round64, if_neg hne, if_neg hnlt]
    rw [hkn, one_mul, round64_core_natCast k.toNat (by omega)]

theorem foldl_round64_int (l : List ℚ) :
    ∀ acc : ℤ, (∀ x ∈ l, ∃ m : ℤ, x = (m : ℚ) ∧ m.natAbs ≤ 2 ^ 50) →
      acc.natAbs + l.length * 2 ^ 50 ≤ 2 ^ 52 →
      l.foldl (fun sum w => round64 (sum + round64 w)) ((acc : ℤ) : ℚ)
        = ((acc : ℤ) : ℚ) + l.sum := by
  induction l with
  | nil => intro acc _ _; simp
  | cons x xs ih =>
    intro acc hl hacc
    rcases hl x (List.mem_cons_self x xs) with ⟨m, hx, hm⟩
    have hround_x : round64 x = x := by
      rw [hx]
      exact round64_intCast m (by omega)
    have hsum_cast : ((acc : ℤ) : ℚ) + x = (((acc + m : ℤ)) : ℚ) := by
      rw [hx]
      push_cast
      ring
    have habs : (acc + m).natAbs ≤ acc.natAbs + m.natAbs := Int.natAbs_add_le acc m
    have hlen : (x :: xs).length = xs.length + 1 := rfl
    have hround_sum : round64 (((acc : ℤ) : ℚ) + x) = ((acc : ℤ) : ℚ) + x := by
      rw [hsum_cast]
      exact round64_intCast (acc + m) (by rw [hlen] at hacc; omega)
    simp only [List.foldl_cons]
    rw [hround_x, hround_sum, hsum_cast]
    rw [ih (acc + m) (fun y hy => hl y (List.mem_cons_of_mem x hy))
      (by rw [hlen] at hacc; omega)]
    rw [List.sum_cons, hx]
    push_cast
    ring

/-- C8 (amended: binary64, exact only on representable inputs): the four-week
expense total is computed in IEEE-754 binary64 (`parseFloat` plus JavaScript
addition), not in exact decimal arithmetic.  The computed total agrees with
the exact value whenever every `cash_out` amount is an integer of magnitude at
most `2^50` (so every partial sum is exactly representable); on
non-representable decimal amounts it can differ (see the counterexample). -/
theorem monthlyExpenses_float_exact (f : ForecastResponse)
    (h : ∀ w ∈ f.weeks.take 4, ∃ m : ℤ, w.cash_out = (m : ℚ) ∧ m.natAbs ≤ 2 ^ 50) :
    monthlyExpensesFP f = monthlyExpenses (some f) := by
  have hfoldl_map :
      monthlyExpensesFP f
        = ((f.weeks.take 4).map fun w => w.cash_out).foldl
            (fun sum x => round64 (sum + round64 x)) 0 := by
    rw [monthlyExpensesFP, List.foldl_map]
  have hexp_sum :
      monthlyExpenses (some f) = ((f.weeks.take 4).map fun w => w.cash_out).sum := by
    have haux : ∀ (l : List ForecastWeek) (init : ℚ),
        l.foldl (fun sum w => sum + w.cash_out) init
          = init + (l.map fun w => w.cash_out).sum := by
      intro l
      induction l with
      | nil => intro init; simp
      | cons a as ihl =>
        intro init
        simp only [List.foldl_cons, List.map_cons, List.sum_cons, ihl]
        ring
    rw [monthlyExpenses, haux]
    ring
  have hmem : ∀ x ∈ (f.weeks.take 4).map fun w => w.cash_out,
      ∃ m : ℤ, x = (m : ℚ) ∧ m.natAbs ≤ 2 ^ 50 := by
    intro x hx
    rcases List.mem_map.mp hx with ⟨w, hw, hwx⟩
    rcases h w hw with ⟨m, hm1, hm2⟩
    exact ⟨m, by rw [← hwx, hm1], hm2⟩
  have hlen : ((f.weeks.take 4).map fun w => w.cash_out).length ≤ 4 := by
    simp [List.length_take]
  have hmain := foldl_round64_int ((f.weeks.take 4).map fun w => w.cash_out) 0 hmem
    (by
      have h52 : (2 : ℕ) ^ 52 = 4 * 2 ^ 50 := by norm_num
      omega)
  rw [Int.cast_zero, zero_add] at hmain
  rw [hfoldl_map, hexp_sum]
  exact hmain

/-- A forecast week carrying only a `cash_out` amount, for concrete instances. -/
def c8week (co : ℚ) : ForecastWeek :=
  { week_number := 1, starting_balance := 0, cash_in := 0, cash_out := co
    net_change := 0, ending_balance := 0 }

/-- Closed instance of `monthlyExpenses_float_exact`: on integer amounts
(100, 200, 300, 400) the binary64 total equals the exact total. -/
theorem monthlyExpenses_float_exact_witness :
    monthlyExpensesFP
        { starting_cash := 0
          weeks := [c8week 100, c8week 200, c8week 300, c8week 400]
          summary := ⟨0, 0, 0, 0, none⟩ }
      = monthlyExpenses (some
        { starting_cash := 0
          weeks := [c8week 100, c8week 200, c8week 300, c8week 400]
          summary := ⟨0, 0, 0, 0, none⟩ }) := by
  apply monthlyExpenses_float_exact
  intro w hw
  simp only [List.take, List.mem_cons, List.not_mem_nil, or_false] at hw
  rcases hw with h | h | h | h
  · exact ⟨100, by rw [h]; norm_num [c8week], by norm_num⟩
  · exact ⟨200, by rw [h]; norm_num [c8week], by norm_num⟩
  · exact ⟨300, by rw [h]; norm_num [c8week], by norm_num⟩
  · exact ⟨400, by rw [h]; norm_num [c8week], by norm_num⟩

/-- Counterexample to C8 as stated: on the decimal amounts 0.1 and 0.2 —
exactly what `parseFloat(week.cash_out)` receives from the API's decimal
strings — the binary64 four-week total differs from its exact-decimal value
(the classic `0.1 + 0.2 ≠ 0.3`), so the monetary arithmetic here is not exact
decimal arithmetic. -/
theorem monthlyExpenses_float_drift_cex :
    monthlyExpensesFP
        { starting_cash := 0
          weeks := [c8week (1/10), c8week (2/10), c8week 0, c8week 0]
          summary := ⟨0, 0, 0, 0, none⟩ }
      ≠ monthlyExpenses (some
        { starting_cash := 0
          weeks := [c8week (1/10), c8week (2/10), c8week 0, c8week 0]
          summary := ⟨0, 0, 0, 0, none⟩ }) := by
  with_unfolding_all decide

/-! ## API client fetch wrapper (src/tamio-frontend/src/lib/api/client.ts
lines 47-85)

All five helpers (`get`/`post`/`put`/`patch`/`delete`) delegate to `apiFetch`;
the embedding models the part of `apiFetch` that runs once the HTTP response
has arrived.  A response is its status code, its `ok` flag, and its body:
`some` parsed JSON document, or `none` when `response.json()` rejects because
the body is not valid JSON. -/

/-- A parsed JSON response body: the empty object `apiFetch` fabricates for
status 204, or a document with an optional string `detail` field and its
remaining content abstracted as `payload`. -/
inductive JsonBody where
  | emptyObject
  | document (detail : Option String) (payload : String)
deriving DecidableEq

/-- The `detail` field of a parsed body, if any. -/
def bodyDetail : JsonBody → Option String
  | JsonBody.emptyObject => none
  | JsonBody.document d _ => d

/-- Embeds `error.detail || 'An error occurred'`: JavaScript `||` also
replaces an empty-string `detail` (falsy) by the fallback message. -/
def errorDetail (b : JsonBody) : String :=
  match bodyDetail b with
  | some d => if d = "" then "An error occurred" else d
  | none => "An error occurred"

/-- An HTTP response as `apiFetch` observes it. -/
structure HttpResponse where
  status : Nat
  ok : Bool
  body : Option JsonBody
deriving DecidableEq

/-- How the promise returned by `apiFetch` settles. -/
inductive FetchOutcome where
  | resolved (data : JsonBody)
  | apiClientError (status : Nat) (detail : String)
  | jsonParseError
deriving DecidableEq

/-- True exactly on outcomes that reject with an `ApiClientError`. -/
def isApiClientError : FetchOutcome → Bool
  | FetchOutcome.apiClientError _ _ => true
  | _ => false

/-- Embeds `apiFetch` (client.ts lines 47-85) from the response on: status 204
resolves with `{}`; otherwise the body is parsed (`await response.json()`,
which rejects on a non-JSON body before `response.ok` is ever consulted); an
ok response resolves with the parsed body and a non-ok one rejects with
`ApiClientError(detail || 'An error occurred', response.status, detail)`. -/
def apiFetch (r : HttpResponse) : FetchOutcome :=
  if r.status = 204 then FetchOutcome.resolved JsonBody.emptyObject
  else
    match r.body with
    | none => FetchOutcome.jsonParseError
    | some data =>
      if r.ok then FetchOutcome.resolved data
      else FetchOutcome.apiClientError r.status (errorDetail data)

/-- C10 (amended: JSON bodies only): for every response whose body parses as
JSON, the promise resolves with the parsed body exactly when the response is
ok (an empty object for status 204, whatever the body), and otherwise rejects
with an `ApiClientError` whose status is the HTTP status code and whose detail
is the body's `detail` field when that field is a nonempty string, and
`"An error occurred"` otherwise; a response whose body fails to parse as JSON
rejects with the JSON parse error instead. -/
theorem apiFetch_spec (r : HttpResponse) :
    (r.status = 204 → apiFetch r = FetchOutcome.resolved JsonBody.emptyObject)
    ∧ (∀ data, r.status ≠ 204 → r.body = some data →
        (r.ok = true → apiFetch r = FetchOutcome.resolved data)
        ∧ (r.ok = false →
            apiFetch r = FetchOutcome.apiClientError r.status (errorDetail data)))
    ∧ (r.status ≠ 204 → r.body = none → apiFetch r = FetchOutcome.jsonParseError) := by
  refine ⟨?_, ?_, ?_⟩
  · intro h204
    simp [apiFetch, h204]
  · intro data hne hbody
    constructor
    · intro hok
      simp [apiFetch, hne, hbody, hok]
    · intro hok
      simp [apiFetch, hne, hbody, hok]
  · intro hne hbody
    simp [apiFetch, hne, hbody]

/-- Closed instance of `apiFetch_spec`: a 404 response with body
`{"detail": "Not found"}` rejects with `ApiClientError` status 404 and detail
`"Not found"`. -/
theorem apiFetch_spec_witness :
    apiFetch ⟨404, false, some (JsonBody.document (some "Not found") "")⟩
      = FetchOutcome.apiClientError 404 "Not found" := by
  have h := ((apiFetch_spec ⟨404, false, some (JsonBody.document (some "Not found") "")⟩).2.1
      (JsonBody.document (some "Not found") "") (by decide) rfl).2 rfl
  simpa [errorDetail, bodyDetail] using h

/-- Counterexample to C10 as stated: a 500 response whose body is not valid
JSON makes `await response.json()` throw, so the promise rejects with the JSON
parse error — not with an `ApiClientError` carrying status 500 as the claim
requires for every non-ok response. -/
theorem apiFetch_nonjson_cex :
    apiFetch ⟨500, false, none⟩ = FetchOutcome.jsonParseError
    ∧ isApiClientError (apiFetch ⟨500, false, none⟩) = false := by
  constructor
  · decide
  · decide
